import Mathlib

/-!
Verification of `src/mapproxy/core/seed_ng.py` (MapProxy tile-cache seeding).

The file shallowly embeds the seeding module in Lean 4:

* the classification constants `NONE`/`CONTAINS`/`INTERSECTS` (lines 45-47),
* `status_symbol` (lines 236-250), with Python float arithmetic rendered
  exactly over `ℚ`,
* the bbox classification method `SeedTask._bbox_intersects` (lines 224-227)
  together with the construction path `SeedTask.__init__` (lines 190-210),
* the recursive descent `Seeder._seed` / `Seeder._sub_seeds` (lines 113-151),
  with the mutable `self.progress` float, the submitted jobs and a ghost
  counter of region-predicate invocations threaded as explicit state, and
  Python exceptions (`ZeroDivisionError`) as an `Except` outcome,
* the worker-pool shutdown protocol `SeedPool.stop` / `SeedWorker.run`
  (lines 74-96), as a FIFO-queue dequeue-trace model.

External collaborators (the tile grid, the region predicate over prepared
geometries, coordinate transforms) are parameters of the embedding, exactly
as they are opaque callees of the Python module.
-/

namespace SeedNG

/-- `NONE = 0` (seed_ng.py line 45): the classification constant for
"disjoint from the region"; falsy in Python truth tests. -/
def NONE : Int := 0

/-- `CONTAINS = -1` (seed_ng.py line 46). -/
def CONTAINS : Int := -1

/-- `INTERSECTS = 1` (seed_ng.py line 47). -/
def INTERSECTS : Int := 1

/-- `status_symbol(i, total)` (seed_ng.py lines 236-250).  The module is
under `from __future__ import division`, so `i/(total/4)` is exact division;
we compute it over `ℚ`.  `symbols = list(' .oO0')`; after `i += 1` the Python
guard `0 < i > total` chains to `0 < i and i > total`. -/
def status_symbol (i total : Nat) : Char :=
  let symbols : List Char := [' ', '.', 'o', 'O', '0']
  let i1 := i + 1
  if 0 < i1 ∧ total < i1 then 'X'
  else symbols.getD (Int.ceil ((i1 : ℚ) / ((total : ℚ) / 4))).toNat ' '

/-- An axis-aligned bounding box `(x0, y0, x1, y1)` with exact rational
coordinates, the shape of the 4-tuples used throughout seed_ng.py. -/
structure BBoxQ where
  x0 : ℚ
  y0 : ℚ
  x1 : ℚ
  y1 : ℚ
deriving DecidableEq

/-- Modelled from the spec: `bbox_contains` is imported from
`mapproxy.core.grid` (seed_ng.py line 29), whose source is not part of this
repository snapshot.  Spec 4.1: CONTAINS iff the region bbox "fully
contains" the query bbox. -/
def bbox_contains (one two : BBoxQ) : Bool :=
  decide (one.x0 ≤ two.x0 ∧ one.y0 ≤ two.y0 ∧ two.x1 ≤ one.x1 ∧ two.y1 ≤ one.y1)

/-- Modelled from the spec: `bbox_intersects` is imported from
`mapproxy.core.grid` (seed_ng.py line 29), whose source is not part of this
repository snapshot.  Spec 4.1: INTERSECTS iff the two bboxes "overlap". -/
def bbox_intersects (one two : BBoxQ) : Bool :=
  decide (one.x0 < two.x1 ∧ two.x0 < one.x1 ∧ one.y0 < two.y1 ∧ two.y0 < one.y1)

/-- The state built by `SeedTask.__init__` (seed_ng.py lines 190-210).
Coordinate systems are opaque identifiers; a prepared geometry is modelled
by its classification function (the only way seed_ng.py consumes one,
via `_geom_intersects`, lines 213-222). -/
structure SeedTaskC where
  start_level : Nat
  max_level : Nat
  bbox_srs : Nat
  seed_srs : Nat
  bbox : BBoxQ
  geom : Option (BBoxQ → Int)

/-- `SeedTask._bbox_intersects` (seed_ng.py lines 224-227). -/
def SeedTaskC.bboxClassify (task : SeedTaskC) (bbox : BBoxQ) : Int :=
  if bbox_contains task.bbox bbox then CONTAINS
  else if bbox_intersects task.bbox bbox then INTERSECTS
  else NONE

/-- `self.intersects` dispatch set up at the end of `SeedTask.__init__`
(seed_ng.py lines 207-210): `_geom_intersects` when a geometry is present,
`_bbox_intersects` otherwise. -/
def SeedTaskC.intersects (task : SeedTaskC) (bbox : BBoxQ) : Int :=
  match task.geom with
  | some geomFn => geomFn bbox
  | none => task.bboxClassify bbox

/-- The claim taxonomy names a `ConfigurationError`; seed_ng.py never
defines or raises one, but the type is needed to state that construction
cannot fail with it. -/
inductive ConfigurationError where
  | mk
deriving DecidableEq

/-- `SeedTask.__init__` (seed_ng.py lines 190-210).  `transform_geometry`
(line 198, returning the reprojected prepared geometry together with its
`bounds`, lines 198-200) and `bbox_srs.transform_bbox_to` (line 202) are
external coordinate-transform capabilities, passed as oracles.  The body
performs no validation of the level range and has no failure path; the
`Except` codomain records exactly that. -/
def seedTaskInit (transform_bbox_to : Nat → Nat → BBoxQ → BBoxQ)
    (transform_geometry : Nat → Nat → (BBoxQ → Int) → ((BBoxQ → Int) × BBoxQ))
    (bbox : BBoxQ) (level : Nat × Nat) (bbox_srs seed_srs : Nat)
    (geom : Option (BBoxQ → Int)) : Except ConfigurationError SeedTaskC :=
  let start_level := level.1
  let max_level := level.2
  if bbox_srs ≠ seed_srs then
    match geom with
    | some g0 =>
        let transformed := transform_geometry bbox_srs seed_srs g0
        Except.ok ⟨start_level, max_level, bbox_srs, seed_srs, transformed.2,
          some transformed.1⟩
    | none =>
        Except.ok ⟨start_level, max_level, bbox_srs, seed_srs,
          transform_bbox_to bbox_srs seed_srs bbox, none⟩
  else
    Except.ok ⟨start_level, max_level, bbox_srs, seed_srs, bbox, geom⟩

/-- The tile-grid capability consumed by the descent (spec 6): seed_ng.py
builds `MetaGrid` (line 106) and calls `get_affected_level_tiles` (line 120,
unpacked as `bbox_, tiles_, subtiles`; only the third component is used) and
`meta_bbox` (line 147).  Entries of the subtile list may be `None`
placeholders (line 146). -/
structure Grid (Tile BBox : Type) where
  get_affected_level_tiles : BBox → Nat → BBox × List Tile × List (Option Tile)
  meta_bbox : Tile → BBox

/-- The fields of the task consumed by `Seeder` (seed_ng.py lines 104, 111,
126, 148): the level range, the seed bbox, and the classification entry
point `intersects` (kept abstract: the descent never looks inside it). -/
structure Task (BBox : Type) where
  start_level : Nat
  max_level : Nat
  bbox : BBox
  intersects : BBox → Int

/-- One element of the worker-pool queue as enqueued by
`self.seed_pool.seed(subtiles, (progess_str, self.progress))`
(seed_ng.py lines 71-72 and 138). -/
structure SeedJob (Tile : Type) where
  tiles : List (Option Tile)
  path : String
  progress : ℚ
deriving DecidableEq

/-- The mutable state of one `Seeder` pass: `self.progress` (line 107,
`0.0` initially, a float modelled exactly over `ℚ`), the sequence of jobs
handed to the pool so far, and a ghost count of `task.intersects`
invocations (the call-counting mock predicate of spec 8). -/
structure SeederSt (Tile : Type) where
  progress : ℚ
  jobs : List (SeedJob Tile)
  predCalls : Nat
deriving DecidableEq

/-- `Seeder.__init__` sets `self.progress = 0.0` (seed_ng.py line 107);
no jobs emitted, no predicate calls yet. -/
def Seeder.initSt (Tile : Type) : SeederSt Tile := ⟨0, [], 0⟩

/-- Python exceptions that can escape `Seeder._seed`: the unguarded
`progress / len(sub_seeds)` at line 128 (`ZeroDivisionError`), plus the
out-of-fuel marker of the embedding, unreachable from `Seeder.seed`
because the recursion depth is bounded by `max_level - level`. -/
inductive SeedErr where
  | zeroDivision
  | outOfFuel
deriving DecidableEq

/-- `Seeder._sub_seeds(subtiles, all_subtiles)` (seed_ng.py lines 140-151):
skip `None` placeholders; classify each present subtile's meta bbox —
`CONTAINS` outright when `all_subtiles` is set, else by `task.intersects` —
and keep those with truthy (non-`NONE`) classification.  The second
component counts the `task.intersects` invocations this makes. -/
def sub_seeds {Tile BBox : Type} (g : Grid Tile BBox) (task : Task BBox)
    (all_subtiles : Bool) : List (Option Tile) → List (BBox × Int) × Nat
  | [] => ([], 0)
  | none :: rest => sub_seeds g task all_subtiles rest
  | some t :: rest =>
      let sub_bbox := g.meta_bbox t
      let intersection := if all_subtiles then CONTAINS else task.intersects sub_bbox
      let restResult := sub_seeds g task all_subtiles rest
      ((if intersection ≠ 0 then (sub_bbox, intersection) :: restResult.1
        else restResult.1),
       (if all_subtiles then 0 else 1) + restResult.2)

/-- The loop body of `Seeder._seed` over `enumerate(sub_seeds)`
(seed_ng.py lines 131-135): recurse into survivor `i` with the extended
glyph path and `all_subtiles = (intersection == CONTAINS)`; a raised
exception aborts the remaining iterations. -/
def seedList {Tile BBox : Type}
    (recur : BBox → String → Bool → SeederSt Tile → Except SeedErr Unit × SeederSt Tile)
    (progess_str : String) (total : Nat) :
    Nat → List (BBox × Int) → SeederSt Tile → Except SeedErr Unit × SeederSt Tile
  | _, [], st => (Except.ok (), st)
  | i, (sub_bbox, intersection) :: rest, st =>
      match recur sub_bbox (progess_str.push (status_symbol i total))
          (intersection == CONTAINS) st with
      | (Except.error e, st1) => (Except.error e, st1)
      | (Except.ok _, st1) => seedList recur progess_str total (i + 1) rest st1

/-- `Seeder._seed(cur_bbox, level, progess_str, progress, all_subtiles)`
(seed_ng.py lines 113-138).  Faithful control flow: fetch the subtile list
for `cur_bbox` at `level`; below `max_level` compute the survivors, divide
the weight by their count (raising `ZeroDivisionError` when there are
none), recurse into each survivor; at `max_level` add the weight to
`self.progress`; in either case finish by enqueuing
`(subtiles, (progess_str, self.progress))` onto the pool.  `fuel` bounds
the recursion depth; `Seeder.seed` supplies `max_level - start_level`,
which never runs out. -/
def seed_ {Tile BBox : Type} (g : Grid Tile BBox) (task : Task BBox) :
    Nat → BBox → Nat → String → ℚ → Bool → SeederSt Tile →
      Except SeedErr Unit × SeederSt Tile
  | fuel, cur_bbox, level, progess_str, progress, all_subtiles, st =>
    let subtiles := (g.get_affected_level_tiles cur_bbox level).2.2
    if level < task.max_level then
      let subResult := sub_seeds g task all_subtiles subtiles
      let st1 : SeederSt Tile := { st with predCalls := st.predCalls + subResult.2 }
      if subResult.1.length = 0 then (Except.error SeedErr.zeroDivision, st1)
      else
        let progress1 := progress / (subResult.1.length : ℚ)
        match fuel with
        | 0 => (Except.error SeedErr.outOfFuel, st1)
        | fuel' + 1 =>
          match seedList (fun b s a st2 => seed_ g task fuel' b (level + 1) s progress1 a st2)
              progess_str subResult.1.length 0 subResult.1 st1 with
          | (Except.error e, st2) => (Except.error e, st2)
          | (Except.ok _, st2) =>
              (Except.ok (),
               { st2 with jobs := st2.jobs ++ [⟨subtiles, progess_str, st2.progress⟩] })
    else
      let st1 : SeederSt Tile := { st with progress := st.progress + progress }
      (Except.ok (),
       { st1 with jobs := st1.jobs ++ [⟨subtiles, progess_str, st1.progress⟩] })

/-- `Seeder.seed` (seed_ng.py lines 110-111) with the `_seed` defaults
`progess_str=''`, `progress=1.0`, `all_subtiles=False` (line 113). -/
def Seeder.seed {Tile BBox : Type} (g : Grid Tile BBox) (task : Task BBox)
    (st : SeederSt Tile) : Except SeedErr Unit × SeederSt Tile :=
  seed_ g task (task.max_level - task.start_level) task.bbox task.start_level
    "" 1 false st

/-- The trace of nodes visited by `seed_`, as `(bbox, level)` pairs in the
order their jobs are enqueued (children first, the node itself last,
mirroring the control flow of seed_ng.py lines 126-138).  Branches on the
same conditions as `seed_`; the value in the error branches is irrelevant
(the correspondence theorem assumes a run that raised nothing). -/
def visits {Tile BBox : Type} (g : Grid Tile BBox) (task : Task BBox) :
    Nat → BBox → Nat → Bool → List (BBox × Nat)
  | fuel, cur_bbox, level, all_subtiles =>
    if level < task.max_level then
      let subSeeds := (sub_seeds g task all_subtiles
        (g.get_affected_level_tiles cur_bbox level).2.2).1
      if subSeeds.length = 0 then []
      else
        match fuel with
        | 0 => []
        | fuel' + 1 =>
            (subSeeds.map (fun p =>
              visits g task fuel' p.1 (level + 1) (p.2 == CONTAINS))).flatten
              ++ [(cur_bbox, level)]
    else [(cur_bbox, level)]

/-- The total weight added to `self.progress` by one `seed_` call: the
whole weight at a leaf visit (seed_ng.py line 137), the sum over the
surviving children below `max_level`, and nothing anywhere else.  The
progress-accounting theorem shows `self.progress` grows by exactly this
amount on every run that raises nothing. -/
def leafGain {Tile BBox : Type} (g : Grid Tile BBox) (task : Task BBox) :
    Nat → BBox → Nat → ℚ → Bool → ℚ
  | fuel, cur_bbox, level, progress, all_subtiles =>
    if level < task.max_level then
      let subSeeds := (sub_seeds g task all_subtiles
        (g.get_affected_level_tiles cur_bbox level).2.2).1
      if subSeeds.length = 0 then 0
      else
        match fuel with
        | 0 => 0
        | fuel' + 1 =>
            (subSeeds.map (fun p =>
              leafGain g task fuel' p.1 (level + 1)
                (progress / (subSeeds.length : ℚ)) (p.2 == CONTAINS))).sum
    else progress

/-- Every node of the descent below `max_level` keeps at least one
surviving child (and the fuel suffices): the hypothesis of the
progress-completeness claim.  `false` on the zero-survivor and
out-of-fuel branches, `true` at leaves. -/
def fullSurvival {Tile BBox : Type} (g : Grid Tile BBox) (task : Task BBox) :
    Nat → BBox → Nat → Bool → Bool
  | fuel, cur_bbox, level, all_subtiles =>
    if level < task.max_level then
      let subSeeds := (sub_seeds g task all_subtiles
        (g.get_affected_level_tiles cur_bbox level).2.2).1
      decide (subSeeds.length ≠ 0) &&
        match fuel with
        | 0 => false
        | fuel' + 1 =>
            subSeeds.all (fun p =>
              fullSurvival g task fuel' p.1 (level + 1) (p.2 == CONTAINS))
    else true

/-- `SeedPool.stop` enqueues one `(None, None)` sentinel per worker process
before joining them (seed_ng.py lines 74-76): the queue contents after
`stop()` are the previously enqueued jobs followed by `nprocs` sentinels
(`none`). -/
def SeedPool.stop_enqueue {J : Type} (queue : List (Option J)) (nprocs : Nat) :
    List (Option J) :=
  queue ++ List.replicate nprocs none

/-- A dequeue trace of the worker pool.  The shared queue is FIFO
(`multiprocessing.Queue`, seed_ng.py line 62), so the j-th dequeue overall
removes `queue[j]`; `who j` names the worker that performed it.  `valid`
is the `SeedWorker.run` loop shape (lines 87-96): a worker returns at its
first sentinel (`tiles is None`), hence never dequeues again afterwards;
every non-sentinel it dequeues is processed. -/
structure PoolRun (J : Type) (N : Nat) where
  queue : List (Option J)
  k : Nat
  who : Nat → Fin N
  hk : k ≤ queue.length
  valid : ∀ i j, i < j → j < k → who i = who j → queue[i]? ≠ some none

/-- Worker `w` has exited: it dequeued a sentinel at some point of the
trace (`SeedWorker.run` returns exactly on `tiles is None`,
seed_ng.py lines 90-91).  `SeedPool.stop` joins every worker (lines 78-79),
so `stop()` returning means every worker satisfies this. -/
def PoolRun.exited {J : Type} {N : Nat} (R : PoolRun J N) (w : Fin N) : Prop :=
  ∃ i, i < R.k ∧ R.who i = w ∧ R.queue[i]? = some none

/-- The `ImportError` raised by `check_shapely` (seed_ng.py lines 316-319). -/
inductive ShapelyImportFailure where
  | mk
deriving DecidableEq

/-- `check_shapely()` (seed_ng.py lines 316-319): raises `ImportError` when
shapely is absent; it lives in the yaml-config loading path
(`seed_from_yaml_conf`, lines 284 and 294), not in `SeedTask.__init__`. -/
def check_shapely (shapely_present : Bool) : Except ShapelyImportFailure Unit :=
  if !shapely_present then Except.error ShapelyImportFailure.mk
  else Except.ok ()

/-! ## Evaluation lemma for `status_symbol` -/

/-- The rational-ceiling index of `status_symbol` as an integer-division
expression, so that concrete glyphs can be computed by `decide`. -/
theorem status_symbol_eval (i total : Nat) :
    status_symbol i total =
      if total < i + 1 then 'X'
      else [' ', '.', 'o', 'O', '0'].getD
        (-((-(4 * (i + 1) : Int)) / (total : Int))).toNat ' ' := by
  unfold status_symbol
  have h0 : 0 < i + 1 := Nat.succ_pos i
  by_cases h : total < i + 1
  · simp [h, h0]
  · simp only [h, h0, true_and, if_false, if_neg h]
    have hq : ((i + 1 : Nat) : ℚ) / ((total : ℚ) / 4) =
        ((4 * (i + 1) : Int) : ℚ) / ((total : Nat) : ℚ) := by
      rw [div_div_eq_mul_div]
      push_cast
      ring
    rw [hq]
    have hceil : ⌈((4 * (i + 1) : Int) : ℚ) / ((total : Nat) : ℚ)⌉ =
        -⌊(((-(4 * (i + 1)) : Int)) : ℚ) / ((total : Nat) : ℚ)⌋ := by
      rw [show ((((-(4 * (i + 1)) : Int)) : ℚ) / ((total : Nat) : ℚ)) =
        -(((4 * (i + 1) : Int) : ℚ) / ((total : Nat) : ℚ)) from by push_cast; ring]
      rw [Int.floor_neg]
      simp
    rw [hceil, Rat.floor_intCast_div_natCast]

/-! ## Lemmas about `sub_seeds` -/

variable {Tile BBox : Type}

/-- With `all_subtiles` set, `_sub_seeds` keeps every present subtile,
classifies each as `CONTAINS`, and calls the region predicate zero times
(seed_ng.py line 148, the `CONTAINS if all_subtiles` arm). -/
theorem sub_seeds_true (g : Grid Tile BBox) (task : Task BBox) :
    ∀ l : List (Option Tile),
      sub_seeds g task true l =
        (l.reduceOption.map (fun t => (g.meta_bbox t, CONTAINS)), 0)
  | [] => rfl
  | none :: rest => by
      simp only [sub_seeds, List.reduceOption_cons_of_none]
      exact sub_seeds_true g task rest
  | some t :: rest => by
      simp only [sub_seeds, List.reduceOption_cons_of_some, List.map_cons]
      rw [sub_seeds_true g task rest]
      simp [CONTAINS]

/-- When every present subtile classifies `NONE`, `_sub_seeds` returns no
survivors (seed_ng.py line 149: `NONE` is falsy). -/
theorem sub_seeds_none_fst (g : Grid Tile BBox) (task : Task BBox) :
    ∀ l : List (Option Tile),
      (∀ t, some t ∈ l → task.intersects (g.meta_bbox t) = NONE) →
      (sub_seeds g task false l).1 = []
  | [], _ => rfl
  | none :: rest, h => by
      simp only [sub_seeds]
      exact sub_seeds_none_fst g task rest (fun t ht => h t (List.mem_cons_of_mem _ ht))
  | some t :: rest, h => by
      have hNone : task.intersects (g.meta_bbox t) = NONE := h t (List.mem_cons_self _ _)
      simp only [sub_seeds, hNone, NONE, Bool.false_eq_true, if_false, ne_eq,
        not_true_eq_false]
      exact sub_seeds_none_fst g task rest (fun t2 ht => h t2 (List.mem_cons_of_mem _ ht))

/-! ## C2: hereditary CONTAINS -/

/-- Along a list of survivors all classified `CONTAINS`, the recursion
triggered by the `_seed` loop never changes the predicate-call count,
provided each recursive call entered with `all_subtiles = True` keeps it
unchanged. -/
theorem seedList_predCalls
    (recur : BBox → String → Bool → SeederSt Tile → Except SeedErr Unit × SeederSt Tile)
    (h : ∀ b s st, ((recur b s true st).2).predCalls = st.predCalls)
    (ps : String) (total : Nat) :
    ∀ (lst : List (BBox × Int)) (i : Nat) (st : SeederSt Tile),
      (∀ p ∈ lst, p.2 = CONTAINS) →
      ((seedList recur ps total i lst st).2).predCalls = st.predCalls
  | [], _, _, _ => rfl
  | (sub_bbox, intersection) :: rest, i, st, hall => by
      have hC : intersection = CONTAINS := hall _ (List.mem_cons_self _ _)
      subst hC
      simp only [seedList, beq_self_eq_true]
      cases hres : recur sub_bbox (ps.push (status_symbol i total)) true st with
      | mk out st1 =>
        have h1 : st1.predCalls = st.predCalls := by
          have := h sub_bbox (ps.push (status_symbol i total)) st
          rw [hres] at this
          exact this
        cases out with
        | error e => simpa using h1
        | ok u =>
          simp only []
          rw [seedList_predCalls recur h ps total rest (i + 1) st1
            (fun p hp => hall p (List.mem_cons_of_mem _ hp))]
          exact h1

/-- A `_seed` call entered with `all_subtiles = True` (the inherited
CONTAINS flag) performs no region-predicate call anywhere in its subtree:
its own `_sub_seeds` short-circuits to `CONTAINS`, every child is
classified `CONTAINS`, and each recursive call re-enters with the flag
set. -/
theorem seed_predCalls_true (g : Grid Tile BBox) (task : Task BBox) :
    ∀ (fuel : Nat) (cur_bbox : BBox) (level : Nat) (ps : String) (pr : ℚ)
      (st : SeederSt Tile),
      ((seed_ g task fuel cur_bbox level ps pr true st).2).predCalls = st.predCalls := by
  intro fuel
  induction fuel with
  | zero =>
      intro cur_bbox level ps pr st
      rw [seed_]
      by_cases hlt : level < task.max_level
      · simp only [if_pos hlt, sub_seeds_true]
        split <;> rfl
      · simp [if_neg hlt]
  | succ fuel' ih =>
      intro cur_bbox level ps pr st
      rw [seed_]
      by_cases hlt : level < task.max_level
      · simp only [if_pos hlt]
        set subtiles := (g.get_affected_level_tiles cur_bbox level).2.2 with hsub
        set S := sub_seeds g task true subtiles with hS
        have h2 : S.2 = 0 := by rw [hS, sub_seeds_true]
        have hall : ∀ p ∈ S.1, p.2 = CONTAINS := by
          rw [hS, sub_seeds_true]
          intro p hp
          simp only [List.mem_map] at hp
          obtain ⟨t, _, rfl⟩ := hp
          rfl
        by_cases hlen : S.1.length = 0
        · simp [hlen, h2]
        · simp only [hlen, if_neg hlen]
          cases hres : seedList
              (fun b s a st2 => seed_ g task fuel' b (level + 1) s (pr / (S.1.length : ℚ)) a st2)
              ps S.1.length 0 S.1 { st with predCalls := st.predCalls + S.2 } with
          | mk out st2 =>
            have hcalls : st2.predCalls = st.predCalls := by
              have := seedList_predCalls
                (fun b s a st2 => seed_ g task fuel' b (level + 1) s (pr / (S.1.length : ℚ)) a st2)
                (fun b s st0 => ih b (level + 1) s (pr / (S.1.length : ℚ)) st0)
                ps S.1.length S.1 0 { st with predCalls := st.predCalls + S.2 } hall
              rw [hres] at this
              simpa [h2] using this
            cases out with
            | error e => simpa using hcalls
            | ok u => simpa using hcalls
      · simp [if_neg hlt]

/-- C2: Hereditary CONTAINS.  In every descent, a node entered with the
inherited CONTAINS flag (`all_subtiles = True`, which `_seed` passes
exactly when the child classified `CONTAINS`, seed_ng.py line 133) makes
zero region-predicate calls in its whole subtree, whatever the outcome;
and `_sub_seeds` under the flag classifies every present child as
`CONTAINS` while invoking the predicate zero times, so the flag propagates
to all deeper descendants. -/
theorem c2_hereditary_contains (g : Grid Tile BBox) (task : Task BBox) :
    (∀ (fuel : Nat) (cur_bbox : BBox) (level : Nat) (ps : String) (pr : ℚ)
      (st : SeederSt Tile),
      ((seed_ g task fuel cur_bbox level ps pr true st).2).predCalls = st.predCalls) ∧
    (∀ l : List (Option Tile),
      sub_seeds g task true l =
        (l.reduceOption.map (fun t => (g.meta_bbox t, CONTAINS)), 0)) :=
  ⟨seed_predCalls_true g task, sub_seeds_true g task⟩

/-! ## C9: unguarded division by the survivor count -/

/-- C9: When a node below `max_level` finds that every present child
classifies `NONE`, `_seed` raises `ZeroDivisionError` at
`progress = progress / len(sub_seeds)` (seed_ng.py line 128), which sits
before the `if sub_seeds:` emptiness check; the subtree is not merely
pruned, the pass aborts (only the predicate-call count has advanced). -/
theorem c9_zero_division (g : Grid Tile BBox) (task : Task BBox)
    (fuel : Nat) (cur_bbox : BBox) (level : Nat) (ps : String) (pr : ℚ)
    (st : SeederSt Tile)
    (hlt : level < task.max_level)
    (hnone : ∀ t, some t ∈ (g.get_affected_level_tiles cur_bbox level).2.2 →
      task.intersects (g.meta_bbox t) = NONE) :
    seed_ g task fuel cur_bbox level ps pr false st =
      (Except.error SeedErr.zeroDivision,
       { st with predCalls := st.predCalls +
          (sub_seeds g task false (g.get_affected_level_tiles cur_bbox level).2.2).2 }) := by
  rw [seed_]
  have hfst := sub_seeds_none_fst g task
    (g.get_affected_level_tiles cur_bbox level).2.2 hnone
  simp [if_pos hlt, hfst]

/-- A one-branch grid and an everywhere-`NONE` region for the C9 witness. -/
def c9g : Grid Nat Nat := ⟨fun _ _ => (0, [], [some 1]), fun t => t⟩

/-- Task whose predicate classifies everything `NONE`. -/
def c9task : Task Nat := ⟨0, 5, 0, fun _ => NONE⟩

/-- Witness for C9 at a concrete input. -/
theorem c9_zero_division_witness :
    seed_ c9g c9task 5 0 0 "" 1 false ⟨0, [], 0⟩ =
      (Except.error SeedErr.zeroDivision, ⟨0, [], 1⟩) := by
  rw [c9_zero_division c9g c9task 5 0 0 "" 1 ⟨0, [], 0⟩ (by decide)
    (fun t _ => rfl)]
  rfl

/-! ## C7: the status glyph table -/

/-- C7: The glyph function reproduces both tables from the doctest of
`status_symbol` (seed_ng.py lines 240-243), and for every `i`, `n` with
`i + 1 > n` it returns the overflow sentinel `'X'` (it is a total
function: no crash). -/
theorem c7_status_symbol_table :
    ((List.range 5).map (fun i => status_symbol i 4) = ['.', 'o', 'O', '0', 'X']) ∧
    ((List.range 11).map (fun i => status_symbol i 10) =
      ['.', '.', 'o', 'o', 'o', 'O', 'O', '0', '0', '0', 'X']) ∧
    (∀ i n : Nat, n < i + 1 → status_symbol i n = 'X') := by
  refine ⟨?_, ?_, ?_⟩
  · simp only [status_symbol_eval]
    decide
  · simp only [status_symbol_eval]
    decide
  · intro i n h
    unfold status_symbol
    simp [h]

/-- Witness for C7's overflow clause at a concrete out-of-range input. -/
theorem c7_status_symbol_table_witness : status_symbol 7 3 = 'X' :=
  c7_status_symbol_table.2.2 7 3 (by decide)

/-! ## C6: bbox-only classification -/

/-- C6: With no geometry configured, `task.intersects` is
`_bbox_intersects`: it returns `CONTAINS` iff the region bbox fully
contains the query bbox; failing that, `INTERSECTS` iff the two bboxes
overlap; otherwise `NONE` (seed_ng.py lines 224-227; the containment and
overlap tests themselves are modelled from the spec, their source lives
in `mapproxy.core.grid`). -/
theorem c6_bbox_classification (task : SeedTaskC) (q : BBoxQ)
    (hg : task.geom = none) :
    (task.intersects q = CONTAINS ↔ bbox_contains task.bbox q = true) ∧
    (bbox_contains task.bbox q = false →
      (task.intersects q = INTERSECTS ↔ bbox_intersects task.bbox q = true)) ∧
    (bbox_contains task.bbox q = false → bbox_intersects task.bbox q = false →
      task.intersects q = NONE) := by
  unfold SeedTaskC.intersects
  rw [hg]
  unfold SeedTaskC.bboxClassify
  by_cases h1 : bbox_contains task.bbox q = true <;>
    by_cases h2 : bbox_intersects task.bbox q = true <;>
      simp [h1, h2, CONTAINS, INTERSECTS, NONE]

/-- A concrete bbox task for the C6 witness: region `(0,0,10,10)`. -/
def c6task : SeedTaskC := ⟨0, 1, 0, 0, ⟨0, 0, 10, 10⟩, none⟩

/-- Witness for C6: the overlapping-but-not-contained query
`(5,5,15,15)` classifies `INTERSECTS`. -/
theorem c6_bbox_classification_witness :
    c6task.intersects ⟨5, 5, 15, 15⟩ = INTERSECTS :=
  ((c6_bbox_classification c6task ⟨5, 5, 15, 15⟩ rfl).2.1 (by decide)).mpr (by decide)

/-! ## C4: task construction never validates the level range -/

/-- C4 (amended): `SeedTask.__init__` has no failure path at all — for
every level pair, including `start > max`, construction succeeds and just
stores the two levels. -/
theorem c4_init_never_fails :
    ∀ (tb : Nat → Nat → BBoxQ → BBoxQ)
      (tg : Nat → Nat → (BBoxQ → Int) → ((BBoxQ → Int) × BBoxQ))
      (bbox : BBoxQ) (level : Nat × Nat) (s1 s2 : Nat)
      (geom : Option (BBoxQ → Int)),
      ∃ t : SeedTaskC, seedTaskInit tb tg bbox level s1 s2 geom = Except.ok t ∧
        t.start_level = level.1 ∧ t.max_level = level.2 := by
  intro tb tg bbox level s1 s2 geom
  unfold seedTaskInit
  by_cases h : s1 ≠ s2
  · simp only [if_pos h]
    cases geom with
    | some g0 => exact ⟨_, rfl, rfl, rfl⟩
    | none => exact ⟨_, rfl, rfl, rfl⟩
  · simp only [if_neg h]
    exact ⟨_, rfl, rfl, rfl⟩

/-- Unit bbox used by the C4 counterexample. -/
def c4bb : BBoxQ := ⟨0, 0, 1, 1⟩

/-- Counterexample to C4 as stated: constructing a task with level range
`(5, 3)` (start > max) succeeds — no `ConfigurationError` is raised — and
the polygon-support guard is `check_shapely`, which raises `ImportError`
(not `ConfigurationError`) and lives in the config loader, not in task
construction. -/
theorem c4_no_configuration_error :
    seedTaskInit (fun _ _ b => b) (fun _ _ g => (g, c4bb)) c4bb (5, 3) 0 0 none =
      Except.ok ⟨5, 3, 0, 0, c4bb, none⟩ ∧
    check_shapely false = Except.error ShapelyImportFailure.mk :=
  ⟨rfl, rfl⟩

/-! ## Progress accounting and job-trace lemmas -/



theorem seedList_mono
    (recur : BBox → String → Bool → SeederSt Tile → Except SeedErr Unit × SeederSt Tile)
    (pr1 : ℚ) (hpr1 : 0 ≤ pr1)
    (h : ∀ b s a st, st.progress ≤ ((recur b s a st).2).progress ∧
        ((recur b s a st).2).progress ≤ st.progress + pr1)
    (ps : String) (total : Nat) :
    ∀ (lst : List (BBox × Int)) (i : Nat) (st : SeederSt Tile),
      st.progress ≤ ((seedList recur ps total i lst st).2).progress ∧
      ((seedList recur ps total i lst st).2).progress ≤
        st.progress + (lst.length : ℚ) * pr1
  | [], i, st => by simp [seedList]
  | (sub_bbox, intersection) :: rest, i, st => by
      simp only [seedList]
      cases hres : recur sub_bbox (ps.push (status_symbol i total))
          (intersection == CONTAINS) st with
      | mk out st1 =>
        have h1 := h sub_bbox (ps.push (status_symbol i total)) (intersection == CONTAINS) st
        rw [hres] at h1
        have hlen : ((((sub_bbox, intersection) :: rest).length : ℚ)) =
            (rest.length : ℚ) + 1 := by push_cast [List.length_cons]; ring
        have hrest : (0:ℚ) ≤ (rest.length : ℚ) * pr1 := by positivity
        cases out with
        | error e =>
            refine ⟨h1.1, ?_⟩
            rw [hlen]
            nlinarith [h1.2]
        | ok u =>
            have h2 := seedList_mono recur pr1 hpr1 h ps total rest (i + 1) st1
            refine ⟨le_trans h1.1 h2.1, ?_⟩
            rw [hlen]
            nlinarith [h1.2, h2.2]

theorem seed_mono (g : Grid Tile BBox) (task : Task BBox) :
    ∀ (fuel : Nat) (cur_bbox : BBox) (level : Nat) (ps : String) (pr : ℚ)
      (as : Bool) (st : SeederSt Tile), 0 ≤ pr →
      st.progress ≤ ((seed_ g task fuel cur_bbox level ps pr as st).2).progress ∧
      ((seed_ g task fuel cur_bbox level ps pr as st).2).progress ≤ st.progress + pr := by
  intro fuel
  induction fuel with
  | zero =>
      intro cur_bbox level ps pr as st hpr
      rw [seed_]
      by_cases hlt : level < task.max_level
      · simp only [if_pos hlt]
        split
        · refine ⟨by simp; try linarith, by simp; try linarith⟩
        · refine ⟨by simp; try linarith, by simp; try linarith⟩
      · simp only [if_neg hlt]
        refine ⟨by simp; try linarith, by simp; try linarith⟩
  | succ fuel' ih =>
      intro cur_bbox level ps pr as st hpr
      rw [seed_]
      by_cases hlt : level < task.max_level
      · simp only [if_pos hlt]
        set S := sub_seeds g task as (g.get_affected_level_tiles cur_bbox level).2.2 with hS
        by_cases hlen : S.1.length = 0
        · simp only [if_pos hlen]
          refine ⟨by simp; try linarith, by simp; try linarith⟩
        · simp only [if_neg hlen]
          have hlenQ : ((S.1.length : ℚ)) ≠ 0 := by
            exact_mod_cast hlen
          have hpr1 : 0 ≤ pr / (S.1.length : ℚ) := by positivity
          cases hres : seedList
              (fun b s a st2 => seed_ g task fuel' b (level + 1) s
                (pr / (S.1.length : ℚ)) a st2)
              ps S.1.length 0 S.1 { st with predCalls := st.predCalls + S.2 } with
          | mk out st2 =>
            have hm := seedList_mono
              (fun b s a st2 => seed_ g task fuel' b (level + 1) s
                (pr / (S.1.length : ℚ)) a st2)
              (pr / (S.1.length : ℚ)) hpr1
              (fun b s a st0 => ih b (level + 1) s (pr / (S.1.length : ℚ)) a st0 hpr1)
              ps S.1.length S.1 0 { st with predCalls := st.predCalls + S.2 }
            rw [hres] at hm
            have hcancel : ((S.1.length : ℚ)) * (pr / (S.1.length : ℚ)) = pr := by
              rw [mul_comm]
              exact div_mul_cancel₀ pr hlenQ
            rw [hcancel] at hm
            cases out with
            | error e => exact ⟨hm.1, by simpa using hm.2⟩
            | ok u =>
                constructor
                · simpa using hm.1
                · simpa using hm.2
      · simp only [if_neg hlt]
        refine ⟨by simp; try linarith, by simp; try linarith⟩



theorem seed_leaf (g : Grid Tile BBox) (task : Task BBox)
    (fuel : Nat) (cur_bbox : BBox) (level : Nat) (ps : String) (pr : ℚ)
    (as : Bool) (st : SeederSt Tile) (hge : task.max_level ≤ level) :
    seed_ g task fuel cur_bbox level ps pr as st =
      (Except.ok (), ⟨st.progress + pr,
        st.jobs ++ [⟨(g.get_affected_level_tiles cur_bbox level).2.2, ps,
          st.progress + pr⟩],
        st.predCalls⟩) := by
  rw [seed_]
  have hlt : ¬ level < task.max_level := not_lt.mpr hge
  simp [if_neg hlt]

theorem seedList_gain
    (recur : BBox → String → Bool → SeederSt Tile → Except SeedErr Unit × SeederSt Tile)
    (gainF : BBox → Bool → ℚ)
    (h : ∀ b s a st st2, recur b s a st = (Except.ok (), st2) →
        st2.progress = st.progress + gainF b a)
    (ps : String) (total : Nat) :
    ∀ (lst : List (BBox × Int)) (i : Nat) (st st2 : SeederSt Tile),
      seedList recur ps total i lst st = (Except.ok (), st2) →
      st2.progress = st.progress +
        (lst.map (fun p => gainF p.1 (p.2 == CONTAINS))).sum
  | [], i, st, st2, heq => by
      simp only [seedList, Prod.mk.injEq] at heq
      rw [← heq.2]
      simp
  | (b0, it) :: rest, i, st, st2, heq => by
      simp only [seedList] at heq
      cases hres : recur b0 (ps.push (status_symbol i total)) (it == CONTAINS) st with
      | mk out st1 =>
        rw [hres] at heq
        cases out with
        | error e => simp at heq
        | ok u =>
            cases u
            have h1 : st1.progress = st.progress + gainF b0 (it == CONTAINS) :=
              h _ _ _ _ _ hres
            have h2 := seedList_gain recur gainF h ps total rest (i + 1) st1 st2 heq
            rw [h2, h1]
            simp only [List.map_cons, List.sum_cons]
            ring

theorem seed_leafGain (g : Grid Tile BBox) (task : Task BBox) :
    ∀ (fuel : Nat) (cur_bbox : BBox) (level : Nat) (ps : String) (pr : ℚ)
      (as : Bool) (st st' : SeederSt Tile),
      seed_ g task fuel cur_bbox level ps pr as st = (Except.ok (), st') →
      st'.progress = st.progress + leafGain g task fuel cur_bbox level pr as := by
  intro fuel
  induction fuel with
  | zero =>
      intro cur_bbox level ps pr as st st' heq
      rw [seed_] at heq
      rw [leafGain]
      by_cases hlt : level < task.max_level
      · simp only [if_pos hlt] at heq ⊢
        split at heq
        · simp at heq
        · simp at heq
      · simp only [if_neg hlt] at heq ⊢
        simp only [Prod.mk.injEq] at heq
        rw [← heq.2]
  | succ fuel' ih =>
      intro cur_bbox level ps pr as st st' heq
      rw [seed_] at heq
      rw [leafGain]
      by_cases hlt : level < task.max_level
      · simp only [if_pos hlt] at heq ⊢
        set S := sub_seeds g task as (g.get_affected_level_tiles cur_bbox level).2.2 with hS
        by_cases hlen : S.1.length = 0
        · simp only [if_pos hlen] at heq ⊢
          simp at heq
        · simp only [if_neg hlen] at heq ⊢
          cases hres : seedList
              (fun b s a st2 => seed_ g task fuel' b (level + 1) s
                (pr / (S.1.length : ℚ)) a st2)
              ps S.1.length 0 S.1 { st with predCalls := st.predCalls + S.2 } with
          | mk out st2 =>
            rw [hres] at heq
            cases out with
            | error e => simp at heq
            | ok u =>
                cases u
                simp only [Prod.mk.injEq] at heq
                have h2 := seedList_gain
                  (fun b s a st2 => seed_ g task fuel' b (level + 1) s
                    (pr / (S.1.length : ℚ)) a st2)
                  (fun b a => leafGain g task fuel' b (level + 1)
                    (pr / (S.1.length : ℚ)) a)
                  (fun b s a st0 st2' hok => ih b (level + 1) s
                    (pr / (S.1.length : ℚ)) a st0 st2' hok)
                  ps S.1.length S.1 0
                  { st with predCalls := st.predCalls + S.2 } st2 hres
                rw [← heq.2]
                simpa using h2
      · simp only [if_neg hlt] at heq ⊢
        simp only [Prod.mk.injEq] at heq
        rw [← heq.2]



theorem seedList_exact
    (recur : BBox → String → Bool → SeederSt Tile → Except SeedErr Unit × SeederSt Tile)
    (pr1 : ℚ) (P : BBox → Bool → Prop)
    (h : ∀ b s a st, P b a → (recur b s a st).1 = Except.ok () ∧
        ((recur b s a st).2).progress = st.progress + pr1)
    (ps : String) (total : Nat) :
    ∀ (lst : List (BBox × Int)) (i : Nat) (st : SeederSt Tile),
      (∀ p ∈ lst, P p.1 (p.2 == CONTAINS)) →
      (seedList recur ps total i lst st).1 = Except.ok () ∧
      ((seedList recur ps total i lst st).2).progress =
        st.progress + (lst.length : ℚ) * pr1
  | [], i, st, _ => by simp [seedList]
  | (b0, it) :: rest, i, st, hall => by
      simp only [seedList]
      have hhead := h b0 (ps.push (status_symbol i total)) (it == CONTAINS) st
        (hall _ (List.mem_cons_self _ _))
      cases hres : recur b0 (ps.push (status_symbol i total)) (it == CONTAINS) st with
      | mk out st1 =>
        rw [hres] at hhead
        cases out with
        | error e => simp at hhead
        | ok u =>
            cases u
            have h2 := seedList_exact recur pr1 P h ps total rest (i + 1) st1
              (fun p hp => hall p (List.mem_cons_of_mem _ hp))
            refine ⟨h2.1, ?_⟩
            rw [h2.2, hhead.2]
            have : ((((b0, it) :: rest).length : ℚ)) = (rest.length : ℚ) + 1 := by
              push_cast [List.length_cons]
              ring
            rw [this]
            ring

theorem seed_fullSurvival (g : Grid Tile BBox) (task : Task BBox) :
    ∀ (fuel : Nat) (cur_bbox : BBox) (level : Nat) (as : Bool),
      fullSurvival g task fuel cur_bbox level as = true →
      ∀ (ps : String) (pr : ℚ) (st : SeederSt Tile),
        (seed_ g task fuel cur_bbox level ps pr as st).1 = Except.ok () ∧
        ((seed_ g task fuel cur_bbox level ps pr as st).2).progress =
          st.progress + pr := by
  intro fuel
  induction fuel with
  | zero =>
      intro cur_bbox level as hfs ps pr st
      rw [fullSurvival] at hfs
      rw [seed_]
      by_cases hlt : level < task.max_level
      · simp only [if_pos hlt] at hfs
        simp at hfs
      · simp only [if_neg hlt]
        refine ⟨by simp, by simp⟩
  | succ fuel' ih =>
      intro cur_bbox level as hfs ps pr st
      rw [fullSurvival] at hfs
      rw [seed_]
      by_cases hlt : level < task.max_level
      · simp only [if_pos hlt] at hfs ⊢
        set S := sub_seeds g task as (g.get_affected_level_tiles cur_bbox level).2.2 with hS
        simp only [Bool.and_eq_true, decide_eq_true_eq, List.all_eq_true] at hfs
        have hlen : ¬ S.1.length = 0 := by
          intro h0
          exact hfs.1 h0
        simp only [if_neg hlen]
        have hlenQ : ((S.1.length : ℚ)) ≠ 0 := by exact_mod_cast hlen
        cases hres : seedList
            (fun b s a st2 => seed_ g task fuel' b (level + 1) s
              (pr / (S.1.length : ℚ)) a st2)
            ps S.1.length 0 S.1 { st with predCalls := st.predCalls + S.2 } with
        | mk out st2 =>
          have hex := seedList_exact
            (fun b s a st2 => seed_ g task fuel' b (level + 1) s
              (pr / (S.1.length : ℚ)) a st2)
            (pr / (S.1.length : ℚ))
            (fun b a => fullSurvival g task fuel' b (level + 1) a = true)
            (fun b s a st0 hP => ih b (level + 1) a hP s (pr / (S.1.length : ℚ)) st0)
            ps S.1.length S.1 0 { st with predCalls := st.predCalls + S.2 }
            (fun p hp => hfs.2 p hp)
          rw [hres] at hex
          have hcancel : ((S.1.length : ℚ)) * (pr / (S.1.length : ℚ)) = pr := by
            rw [mul_comm]
            exact div_mul_cancel₀ pr hlenQ
          rw [hcancel] at hex
          cases out with
          | error e => simp at hex
          | ok u =>
              cases u
              refine ⟨by simp, by simpa using hex.2⟩
      · simp only [if_neg hlt]
        refine ⟨by simp, by simp⟩



theorem seedList_jobs_append
    (recur : BBox → String → Bool → SeederSt Tile → Except SeedErr Unit × SeederSt Tile)
    (h : ∀ b s a st, ∃ d, ((recur b s a st).2).jobs = st.jobs ++ d)
    (ps : String) (total : Nat) :
    ∀ (lst : List (BBox × Int)) (i : Nat) (st : SeederSt Tile),
      ∃ d, ((seedList recur ps total i lst st).2).jobs = st.jobs ++ d
  | [], i, st => ⟨[], by simp [seedList]⟩
  | (b0, it) :: rest, i, st => by
      simp only [seedList]
      cases hres : recur b0 (ps.push (status_symbol i total)) (it == CONTAINS) st with
      | mk out st1 =>
        obtain ⟨d1, hd1⟩ := h b0 (ps.push (status_symbol i total)) (it == CONTAINS) st
        rw [hres] at hd1
        cases out with
        | error e => exact ⟨d1, by simpa using hd1⟩
        | ok u =>
            obtain ⟨d2, hd2⟩ := seedList_jobs_append recur h ps total rest (i + 1) st1
            have hd1a : st1.jobs = st.jobs ++ d1 := by simpa using hd1
            exact ⟨d1 ++ d2, by rw [hd2, hd1a, List.append_assoc]⟩

theorem seed_jobs_append (g : Grid Tile BBox) (task : Task BBox) :
    ∀ (fuel : Nat) (cur_bbox : BBox) (level : Nat) (ps : String) (pr : ℚ)
      (as : Bool) (st : SeederSt Tile),
      ∃ d, ((seed_ g task fuel cur_bbox level ps pr as st).2).jobs = st.jobs ++ d := by
  intro fuel
  induction fuel with
  | zero =>
      intro cur_bbox level ps pr as st
      rw [seed_]
      by_cases hlt : level < task.max_level
      · simp only [if_pos hlt]
        split
        · exact ⟨[], by simp⟩
        · exact ⟨[], by simp⟩
      · simp only [if_neg hlt]
        exact ⟨_, rfl⟩
  | succ fuel' ih =>
      intro cur_bbox level ps pr as st
      rw [seed_]
      by_cases hlt : level < task.max_level
      · simp only [if_pos hlt]
        set S := sub_seeds g task as (g.get_affected_level_tiles cur_bbox level).2.2 with hS
        by_cases hlen : S.1.length = 0
        · simp only [if_pos hlen]
          exact ⟨[], by simp⟩
        · simp only [if_neg hlen]
          cases hres : seedList
              (fun b s a st2 => seed_ g task fuel' b (level + 1) s
                (pr / (S.1.length : ℚ)) a st2)
              ps S.1.length 0 S.1 { st with predCalls := st.predCalls + S.2 } with
          | mk out st2 =>
            obtain ⟨d, hd⟩ := seedList_jobs_append
              (fun b s a st2 => seed_ g task fuel' b (level + 1) s
                (pr / (S.1.length : ℚ)) a st2)
              (fun b s a st0 => ih b (level + 1) s (pr / (S.1.length : ℚ)) a st0)
              ps S.1.length S.1 0 { st with predCalls := st.predCalls + S.2 }
            rw [hres] at hd
            cases out with
            | error e => exact ⟨d, by simpa using hd⟩
            | ok u =>
                have hda : st2.jobs = st.jobs ++ d := by simpa using hd
                exact ⟨d ++ [⟨(g.get_affected_level_tiles cur_bbox level).2.2, ps,
                  st2.progress⟩], by simp [hda]⟩
      · simp only [if_neg hlt]
        exact ⟨_, rfl⟩



/-- C10: Batches are enqueued in strict post-order.  `_seed` runs the
recursive loop over its surviving children (seed_ng.py lines 131-135)
before its own `self.seed_pool.seed(...)` (line 138), so in any call that
completes without an exception, everything enqueued by the call's subtree
precedes the call's own batch, which is the last job the call appends —
in particular the start-level batch of `Seeder.seed` is enqueued last of
the whole pass. -/
theorem c10_postorder_enqueue (g : Grid Tile BBox) (task : Task BBox)
    (fuel : Nat) (cur_bbox : BBox) (level : Nat) (ps : String) (pr : ℚ)
    (as : Bool) (st st' : SeederSt Tile)
    (heq : seed_ g task fuel cur_bbox level ps pr as st = (Except.ok (), st')) :
    ∃ d, st'.jobs = st.jobs ++ d ++
      [⟨(g.get_affected_level_tiles cur_bbox level).2.2, ps, st'.progress⟩] := by
  rw [seed_] at heq
  by_cases hlt : level < task.max_level
  · simp only [if_pos hlt] at heq
    set S := sub_seeds g task as (g.get_affected_level_tiles cur_bbox level).2.2 with hS
    by_cases hlen : S.1.length = 0
    · simp only [if_pos hlen] at heq
      simp at heq
    · cases fuel with
      | zero =>
          simp only [if_neg hlen] at heq
          simp at heq
      | succ fuel' =>
        simp only [if_neg hlen] at heq
        cases hres : seedList
            (fun b s a st2 => seed_ g task fuel' b (level + 1) s
              (pr / (S.1.length : ℚ)) a st2)
            ps S.1.length 0 S.1 { st with predCalls := st.predCalls + S.2 } with
        | mk out st2 =>
          rw [hres] at heq
          cases out with
          | error e => simp at heq
          | ok u =>
              cases u
              simp only [Prod.mk.injEq] at heq
              obtain ⟨d, hd⟩ := seedList_jobs_append
                (fun b s a st2 => seed_ g task fuel' b (level + 1) s
                  (pr / (S.1.length : ℚ)) a st2)
                (fun b s a st0 => seed_jobs_append g task fuel' b (level + 1) s
                  (pr / (S.1.length : ℚ)) a st0)
                ps S.1.length S.1 0 { st with predCalls := st.predCalls + S.2 }
              rw [hres] at hd
              have hda : st2.jobs = st.jobs ++ d := by simpa using hd
              refine ⟨d, ?_⟩
              rw [← heq.2]
              simp [hda]
  · simp only [if_neg hlt] at heq
    simp only [Prod.mk.injEq] at heq
    refine ⟨[], ?_⟩
    rw [← heq.2]
    simp

theorem seedList_jobs_vis
    (recur : BBox → String → Bool → SeederSt Tile → Except SeedErr Unit × SeederSt Tile)
    (visitF : BBox → Bool → List (List (Option Tile)))
    (h : ∀ b s a st st2, recur b s a st = (Except.ok (), st2) →
        st2.jobs.map SeedJob.tiles = st.jobs.map SeedJob.tiles ++ visitF b a)
    (ps : String) (total : Nat) :
    ∀ (lst : List (BBox × Int)) (i : Nat) (st st2 : SeederSt Tile),
      seedList recur ps total i lst st = (Except.ok (), st2) →
      st2.jobs.map SeedJob.tiles = st.jobs.map SeedJob.tiles ++
        (lst.map (fun p => visitF p.1 (p.2 == CONTAINS))).flatten
  | [], i, st, st2, heq => by
      simp only [seedList, Prod.mk.injEq] at heq
      rw [← heq.2]
      simp
  | (b0, it) :: rest, i, st, st2, heq => by
      simp only [seedList] at heq
      cases hres : recur b0 (ps.push (status_symbol i total)) (it == CONTAINS) st with
      | mk out st1 =>
        rw [hres] at heq
        cases out with
        | error e => simp at heq
        | ok u =>
            cases u
            have h1 := h _ _ _ _ _ hres
            have h2 := seedList_jobs_vis recur visitF h ps total rest (i + 1) st1 st2 heq
            rw [h2, h1]
            simp [List.append_assoc]

theorem seed_jobs_vis (g : Grid Tile BBox) (task : Task BBox) :
    ∀ (fuel : Nat) (cur_bbox : BBox) (level : Nat) (ps : String) (pr : ℚ)
      (as : Bool) (st st' : SeederSt Tile),
      seed_ g task fuel cur_bbox level ps pr as st = (Except.ok (), st') →
      st'.jobs.map SeedJob.tiles = st.jobs.map SeedJob.tiles ++
        (visits g task fuel cur_bbox level as).map
          (fun v => (g.get_affected_level_tiles v.1 v.2).2.2) := by
  intro fuel
  induction fuel with
  | zero =>
      intro cur_bbox level ps pr as st st' heq
      rw [seed_] at heq
      rw [visits]
      by_cases hlt : level < task.max_level
      · simp only [if_pos hlt] at heq ⊢
        split at heq
        · simp at heq
        · simp at heq
      · simp only [if_neg hlt] at heq ⊢
        simp only [Prod.mk.injEq] at heq
        rw [← heq.2]
        simp
  | succ fuel' ih =>
      intro cur_bbox level ps pr as st st' heq
      rw [seed_] at heq
      rw [visits]
      by_cases hlt : level < task.max_level
      · simp only [if_pos hlt] at heq ⊢
        set S := sub_seeds g task as (g.get_affected_level_tiles cur_bbox level).2.2 with hS
        by_cases hlen : S.1.length = 0
        · simp only [if_pos hlen] at heq ⊢
          simp at heq
        · simp only [if_neg hlen] at heq ⊢
          cases hres : seedList
              (fun b s a st2 => seed_ g task fuel' b (level + 1) s
                (pr / (S.1.length : ℚ)) a st2)
              ps S.1.length 0 S.1 { st with predCalls := st.predCalls + S.2 } with
          | mk out st2 =>
            rw [hres] at heq
            cases out with
            | error e => simp at heq
            | ok u =>
                cases u
                simp only [Prod.mk.injEq] at heq
                have h2 := seedList_jobs_vis
                  (fun b s a st2 => seed_ g task fuel' b (level + 1) s
                    (pr / (S.1.length : ℚ)) a st2)
                  (fun b a => (visits g task fuel' b (level + 1) a).map
                    (fun v => (g.get_affected_level_tiles v.1 v.2).2.2))
                  (fun b s a st0 st2' hok => ih b (level + 1) s
                    (pr / (S.1.length : ℚ)) a st0 st2' hok)
                  ps S.1.length S.1 0
                  { st with predCalls := st.predCalls + S.2 } st2 hres
                rw [← heq.2]
                simp only [List.map_append, List.map_flatten, List.map_map]
                rw [h2]
                simp only [List.append_assoc, List.singleton_append, List.append_cancel_left_eq]
                rfl
      · simp only [if_neg hlt] at heq ⊢
        simp only [Prod.mk.injEq] at heq
        rw [← heq.2]
        simp


/-! ## C5: the progress invariants -/

/-- C5: `self.progress` never decreases across any `_seed` call, grows by
at most the call's weight (hence stays in `[0, 1]` for the full pass,
which starts from `0.0` with weight `1.0`), is updated by exactly the
weight at a leaf-level visit, and over any run that raises nothing grows
by exactly `leafGain` — a quantity that, by its definition, accrues weight
only in the `level == max_level` branch (seed_ng.py line 137), i.e. only
at leaf visits. -/
theorem c5_progress_invariants (g : Grid Tile BBox) (task : Task BBox) :
    (∀ (fuel : Nat) (cur_bbox : BBox) (level : Nat) (ps : String) (pr : ℚ)
      (as : Bool) (st : SeederSt Tile), 0 ≤ pr →
      (st.progress ≤ ((seed_ g task fuel cur_bbox level ps pr as st).2).progress ∧
       ((seed_ g task fuel cur_bbox level ps pr as st).2).progress ≤ st.progress + pr) ∧
      (task.max_level ≤ level →
        ((seed_ g task fuel cur_bbox level ps pr as st).2).progress = st.progress + pr) ∧
      (∀ st', seed_ g task fuel cur_bbox level ps pr as st = (Except.ok (), st') →
        st'.progress = st.progress + leafGain g task fuel cur_bbox level pr as)) ∧
    (0 ≤ ((Seeder.seed g task (Seeder.initSt Tile)).2).progress ∧
     ((Seeder.seed g task (Seeder.initSt Tile)).2).progress ≤ 1) := by
  constructor
  · intro fuel cur_bbox level ps pr as st hpr
    refine ⟨seed_mono g task fuel cur_bbox level ps pr as st hpr, fun hge => ?_,
      fun st' h => seed_leafGain g task fuel cur_bbox level ps pr as st st' h⟩
    rw [seed_leaf g task fuel cur_bbox level ps pr as st hge]
  · have hm := seed_mono g task (task.max_level - task.start_level) task.bbox
      task.start_level "" 1 false (Seeder.initSt Tile) (by norm_num)
    unfold Seeder.seed
    constructor
    · simpa [Seeder.initSt] using hm.1
    · simpa [Seeder.initSt] using hm.2

/-- Branching-factor-2 grid over opaque `Nat` bboxes, used by witnesses. -/
def c3g : Grid Nat Nat := ⟨fun b _ => (b, [], [some (2 * b), some (2 * b + 1)]), fun t => t⟩

/-- A 3-level task whose predicate always answers `INTERSECTS`. -/
def c3task : Task Nat := ⟨0, 2, 1, fun _ => INTERSECTS⟩

/-- Witness for C5's leaf-exactness clause at a concrete input. -/
theorem c5_progress_invariants_witness :
    ((seed_ c3g c3task 0 5 9 "" 1 false (Seeder.initSt Nat)).2).progress =
      (Seeder.initSt Nat).progress + 1 :=
  ((c5_progress_invariants c3g c3task).1 0 5 9 "" 1 false (Seeder.initSt Nat)
    (by norm_num)).2.1 (by decide)

/-! ## C3: progress reaches 1 on full-survival descents -/

/-- C3: On any descent in which every visited node below `max_level` keeps
at least one surviving child (in particular when nothing is pruned), the
run raises nothing and `self.progress` grows by exactly the entry weight:
each node divides its weight evenly over its survivors (seed_ng.py
line 128) and every survivor is visited, so the full pass of
`Seeder.seed` — entry weight `1.0`, initial progress `0.0` — ends with
progress exactly `1`, for any branching factor. -/
theorem c3_progress_reaches_one (g : Grid Tile BBox) (task : Task BBox) :
    (∀ (fuel : Nat) (cur_bbox : BBox) (level : Nat) (as : Bool),
      fullSurvival g task fuel cur_bbox level as = true →
      ∀ (ps : String) (pr : ℚ) (st : SeederSt Tile),
        (seed_ g task fuel cur_bbox level ps pr as st).1 = Except.ok () ∧
        ((seed_ g task fuel cur_bbox level ps pr as st).2).progress =
          st.progress + pr) ∧
    (fullSurvival g task (task.max_level - task.start_level) task.bbox
        task.start_level false = true →
      ((Seeder.seed g task (Seeder.initSt Tile)).2).progress = 1) := by
  refine ⟨seed_fullSurvival g task, fun h => ?_⟩
  have hfull := (seed_fullSurvival g task (task.max_level - task.start_level)
    task.bbox task.start_level false h "" 1 (Seeder.initSt Tile)).2
  unfold Seeder.seed
  rw [hfull]
  simp [Seeder.initSt]

/-- Witness for C3: the branching-factor-2, 3-level, never-pruned descent
ends with progress exactly 1. -/
theorem c3_progress_reaches_one_witness :
    ((Seeder.seed c3g c3task (Seeder.initSt Nat)).2).progress = 1 :=
  (c3_progress_reaches_one c3g c3task).2 (by decide)

/-! ## C1: one job per visit; `None` placeholders are not filtered -/

/-- A grid whose subtile list holds a `None` placeholder next to a real
tile, and a single-level task: the placeholder reaches the submitted
batch untouched. -/
def c1g : Grid Nat Nat := ⟨fun _ _ => (0, [], [none, some 1]), fun t => t⟩

/-- One-level task (`start = max = 0`); the predicate is never consulted. -/
def c1task : Task Nat := ⟨0, 0, 0, fun _ => NONE⟩

/-- Counterexample to C1 as stated: `_seed` submits `subtiles` to the pool
verbatim (seed_ng.py line 138) — the batch of the single visited node is
`[None, tile 1]`, with the absent placeholder *included*.  `None` entries
are skipped only by `_sub_seeds` when choosing children to recurse into
(line 146), not when the batch is enqueued. -/
theorem c1_none_placeholders_submitted :
    ((Seeder.seed c1g c1task (Seeder.initSt Nat)).2).jobs.map SeedJob.tiles =
      [[none, some 1]] ∧
    none ∈ [(none : Option Nat), some 1] := by
  constructor
  · rfl
  · simp

/-- C1 (amended): in any descent that raises nothing, exactly one SeedJob
is submitted per visited node at every level between start and max — the
job list grows by exactly the visit trace, in order — and each job's batch
is the grid's subtile list for that node's bbox and level, submitted
without filtering (absent `None` placeholders included; they are skipped
only when computing the children to recurse into). -/
theorem c1_one_job_per_visit (g : Grid Tile BBox) (task : Task BBox)
    (fuel : Nat) (cur_bbox : BBox) (level : Nat) (ps : String) (pr : ℚ)
    (as : Bool) (st st' : SeederSt Tile)
    (heq : seed_ g task fuel cur_bbox level ps pr as st = (Except.ok (), st')) :
    st'.jobs.map SeedJob.tiles = st.jobs.map SeedJob.tiles ++
      (visits g task fuel cur_bbox level as).map
        (fun v => (g.get_affected_level_tiles v.1 v.2).2.2) :=
  seed_jobs_vis g task fuel cur_bbox level ps pr as st st' heq

/-- Witness for C1 at a concrete one-level descent. -/
theorem c1_one_job_per_visit_witness :
    ((⟨(0 : ℚ) + 1, [⟨[none, some 1], "", (0 : ℚ) + 1⟩], 0⟩ :
        SeederSt Nat)).jobs.map SeedJob.tiles =
      (Seeder.initSt Nat).jobs.map SeedJob.tiles ++
        (visits c1g c1task 0 0 0 false).map
          (fun v => (c1g.get_affected_level_tiles v.1 v.2).2.2) :=
  c1_one_job_per_visit c1g c1task 0 0 0 "" 1 false (Seeder.initSt Nat)
    ⟨(0 : ℚ) + 1, [⟨[none, some 1], "", (0 : ℚ) + 1⟩], 0⟩ rfl

/-- Witness for C10 at the same concrete descent: the (root) node's own
batch is the last element appended by its call. -/
theorem c10_postorder_enqueue_witness :
    ∃ d, ([⟨[none, some 1], "", (0 : ℚ) + 1⟩] : List (SeedJob Nat)) =
      (Seeder.initSt Nat).jobs ++ d ++
        [⟨(c1g.get_affected_level_tiles 0 0).2.2, "", (0 : ℚ) + 1⟩] :=
  c10_postorder_enqueue c1g c1task 0 0 0 "" 1 false (Seeder.initSt Nat)
    ⟨(0 : ℚ) + 1, [⟨[none, some 1], "", (0 : ℚ) + 1⟩], 0⟩ rfl

/-! ## C8: worker-pool shutdown -/

/-- In the post-`stop()` queue, position `i` holds the sentinel iff it is
past the jobs. -/
theorem poolrun_sentinel_iff {J : Type} {N : Nat} (jobs : List J)
    (queue : List (Option J)) (hq : queue = SeedPool.stop_enqueue (jobs.map some) N)
    (i : Nat) (hi : i < queue.length) :
    (queue[i]? = some none ↔ jobs.length ≤ i) := by
  subst hq
  unfold SeedPool.stop_enqueue at hi ⊢
  constructor
  · intro h
    by_contra hlt
    push_neg at hlt
    have hlt2 : i < (jobs.map some).length := by simpa using hlt
    rw [List.getElem?_append_left hlt2] at h
    rw [List.getElem?_map] at h
    cases hj : jobs[i]? with
    | none =>
        rw [hj] at h
        simp at h
    | some x =>
        rw [hj] at h
        simp at h
  · intro h
    have h2 : (jobs.map some).length ≤ i := by simpa using h
    rw [List.getElem?_append_right h2]
    have hlen2 : i - jobs.length < N := by
      simp only [List.length_append, List.length_map, List.length_replicate] at hi
      omega
    simp [List.getElem?_replicate, List.length_map, hlen2]

/-- C8: After `stop()` the queue holds the previously enqueued jobs
followed by exactly one sentinel per worker (`N` in total, seed_ng.py
lines 74-76).  In any dequeue trace consistent with the FIFO queue and the
worker loop (a worker returns at its first sentinel, lines 87-96), if
every worker has exited — which is what the `join` loop of `stop()` waits
for before returning — then the whole queue was drained, each worker
consumed exactly one sentinel, and every job enqueued before `stop()` was
dequeued (and hence processed) by some worker: none is dropped. -/
theorem c8_stop_drains_all {J : Type} {N : Nat} (jobs : List J) (R : PoolRun J N)
    (hq : R.queue = SeedPool.stop_enqueue (jobs.map some) N)
    (hex : ∀ w : Fin N, R.exited w) :
    R.k = R.queue.length ∧
    (∀ w : Fin N, ∃! i, i < R.k ∧ R.who i = w ∧ R.queue[i]? = some none) ∧
    (∀ idx, idx < jobs.length → idx < R.k ∧ R.queue[idx]? = (jobs[idx]?).map some) := by
  classical
  have hN : 0 < N := by
    rcases Nat.eq_zero_or_pos N with h0 | h0
    · subst h0
      exact (R.who 0).elim0
    · exact h0
  have hlen : R.queue.length = jobs.length + N := by
    rw [hq]
    unfold SeedPool.stop_enqueue
    simp
  choose f hf1 hf2 hf3 using hex
  have hsent : ∀ w : Fin N, jobs.length ≤ f w := by
    intro w
    have := (poolrun_sentinel_iff jobs R.queue hq (f w) (lt_of_lt_of_le (hf1 w) R.hk)).mp (hf3 w)
    exact this
  have hk : R.k = R.queue.length := by
    refine Nat.le_antisymm R.hk ?_
    have hinj : Set.InjOn f ↑(Finset.univ : Finset (Fin N)) := by
      intro a _ b _ hab
      rw [← hf2 a, ← hf2 b, hab]
    have hmaps : ∀ w ∈ (Finset.univ : Finset (Fin N)), f w ∈ Finset.Ico jobs.length R.k := by
      intro w _
      rw [Finset.mem_Ico]
      exact ⟨hsent w, hf1 w⟩
    have hcard := Finset.card_le_card_of_injOn f hmaps hinj
    simp only [Finset.card_univ, Fintype.card_fin, Nat.card_Ico] at hcard
    omega
  refine ⟨hk, ?_, ?_⟩
  · intro w
    refine ⟨f w, ⟨hf1 w, hf2 w, hf3 w⟩, ?_⟩
    intro j hj
    rcases lt_trichotomy j (f w) with hlt | heq | hgt
    · exact absurd hj.2.2 (R.valid j (f w) hlt (hf1 w) (hj.2.1.trans (hf2 w).symm))
    · exact heq
    · exact absurd (hf3 w) (R.valid (f w) j hgt hj.1 ((hf2 w).trans hj.2.1.symm))
  · intro idx hidx
    refine ⟨by omega, ?_⟩
    rw [hq]
    unfold SeedPool.stop_enqueue
    have h2 : idx < (jobs.map some).length := by simpa using hidx
    rw [List.getElem?_append_left h2, List.getElem?_map]



/-- A one-worker, one-job dequeue trace for the C8 witness: the worker
takes the job, then the sentinel. -/
def c8run : PoolRun Nat 1 where
  queue := SeedPool.stop_enqueue ([7].map some) 1
  k := 2
  who := fun _ => ⟨0, Nat.one_pos⟩
  hk := by simp [SeedPool.stop_enqueue]
  valid := by
    intro i j hij hj _
    have hi : i = 0 := by omega
    subst hi
    simp [SeedPool.stop_enqueue]

/-- Witness for C8 on the concrete one-worker trace. -/
theorem c8_stop_drains_all_witness :
    c8run.k = c8run.queue.length :=
  (c8_stop_drains_all [7] c8run rfl
    (fun w => ⟨1, by decide, Subsingleton.elim _ _, by simp [c8run, SeedPool.stop_enqueue]⟩)).1


end SeedNG
